import Mathlib

/-
Verification of the Eidolon concurrency module (eidolon/Concurrency.py):
a shallow embedding of the range-partitioning dispatcher, the worker
barrier protocol, object sharing, result collection and the reducers,
with theorems checking the module's specification against the code.
-/

namespace Eidolon

/-- Modelled from the spec: `partitionSequence` is defined in Utils.py, which is
not among the provided sources.  The spec's partitioning rule says worker `i`
of `k` over range size `n` gets `[floor(i*n/k), floor((i+1)*n/k))`; the
dispatcher calls `partitionSequence(valrange, i, numprocs)` to obtain exactly
this `(start, end)` pair. -/
def partitionSequence (n i k : Nat) : Nat × Nat :=
  (i * n / k, (i + 1) * n / k)

/-- Start of worker `i`'s sub-range. -/
def partStart (n k i : Nat) : Nat := i * n / k

lemma partitionSequence_fst (n i k : Nat) :
    (partitionSequence n i k).1 = partStart n k i := rfl

lemma partitionSequence_snd (n i k : Nat) :
    (partitionSequence n i k).2 = partStart n k (i + 1) := rfl

lemma partStart_mono (n k : Nat) {i j : Nat} (h : i ≤ j) :
    partStart n k i ≤ partStart n k j :=
  Nat.div_le_div_right (Nat.mul_le_mul_right n h)

lemma partStart_zero (n k : Nat) : partStart n k 0 = 0 := by
  simp [partStart]

lemma partStart_last (n k : Nat) (hk : 0 < k) : partStart n k k = n := by
  simp [partStart, Nat.mul_div_cancel_left n hk]

lemma partStart_succ (n k i : Nat) (hk : 0 < k) :
    partStart n k (i + 1) =
      partStart n k i + n / k + (if k ≤ i * n % k + n % k then 1 else 0) := by
  have h : (i + 1) * n = i * n + n := by ring
  simp only [partStart, h, Nat.add_div hk]

/-- Each sub-range's length is `n/k` or `n/k + 1`. -/
lemma partLen_bounds (n k i : Nat) (hk : 0 < k) :
    n / k ≤ partStart n k (i + 1) - partStart n k i ∧
      partStart n k (i + 1) - partStart n k i ≤ n / k + 1 := by
  rw [partStart_succ n k i hk]
  by_cases h : k ≤ i * n % k + n % k <;> simp [h] <;> omega

/-- Every `x < n` lies in the sub-range of some worker `i < k`. -/
lemma partition_cover (n k x : Nat) (hk : 0 < k) (hx : x < n) :
    ∃ i, i < k ∧ partStart n k i ≤ x ∧ x < partStart n k (i + 1) := by
  have hex : ∃ j, x < partStart n k j := ⟨k, by rw [partStart_last n k hk]; exact hx⟩
  classical
  set m := Nat.find hex with hm
  have hspec : x < partStart n k m := Nat.find_spec hex
  have hm0 : m ≠ 0 := by
    intro h0
    rw [h0, partStart_zero] at hspec
    omega
  obtain ⟨i, hi⟩ : ∃ i, m = i + 1 := ⟨m - 1, by omega⟩
  refine ⟨i, ?_, ?_, by rw [← hi]; exact hspec⟩
  · by_contra hik
    push_neg at hik
    have h1 : partStart n k k ≤ partStart n k i := partStart_mono n k hik
    rw [partStart_last n k hk] at h1
    have h2 : ¬ x < partStart n k i := Nat.find_min hex (by omega)
    omega
  · have h2 : ¬ x < partStart n k i := Nat.find_min hex (by omega)
    omega

/-- Claim C1: for every range size N > 0 and worker count k with 1 ≤ k ≤ N, the
k sub-ranges computed by the dispatcher's partitioning (worker i gets
[floor(i*N/k), floor((i+1)*N/k))) are pairwise disjoint, their union is exactly
[0,N), and the lengths of any two sub-ranges differ by at most 1. -/
theorem partitionSequence_partitions (N k : Nat) (hN : 0 < N) (hk1 : 1 ≤ k)
    (hkN : k ≤ N) :
    (∀ i j x, i < k → j < k → i ≠ j →
      ¬((partitionSequence N i k).1 ≤ x ∧ x < (partitionSequence N i k).2 ∧
        (partitionSequence N j k).1 ≤ x ∧ x < (partitionSequence N j k).2)) ∧
    (∀ x, x < N ↔ ∃ i, i < k ∧
      (partitionSequence N i k).1 ≤ x ∧ x < (partitionSequence N i k).2) ∧
    (∀ i j, i < k → j < k →
      (partitionSequence N i k).2 - (partitionSequence N i k).1 ≤
        ((partitionSequence N j k).2 - (partitionSequence N j k).1) + 1) := by
  have hk : 0 < k := hk1
  refine ⟨?_, ?_, ?_⟩
  · intro i j x hi hj hij hboth
    simp only [partitionSequence_fst, partitionSequence_snd] at hboth
    obtain ⟨h1, h2, h3, h4⟩ := hboth
    rcases Nat.lt_or_ge i j with hlt | hge
    · have : partStart N k (i + 1) ≤ partStart N k j := partStart_mono N k hlt
      omega
    · have hjlt : j < i := by omega
      have : partStart N k (j + 1) ≤ partStart N k i := partStart_mono N k hjlt
      omega
  · intro x
    constructor
    · intro hx
      obtain ⟨i, hik, h1, h2⟩ := partition_cover N k x hk hx
      exact ⟨i, hik, by rw [partitionSequence_fst]; exact h1,
        by rw [partitionSequence_snd]; exact h2⟩
    · rintro ⟨i, hik, h1, h2⟩
      rw [partitionSequence_snd] at h2
      have hle : partStart N k (i + 1) ≤ partStart N k k := partStart_mono N k hik
      rw [partStart_last N k hk] at hle
      omega
  · intro i j hi hj
    simp only [partitionSequence_fst, partitionSequence_snd]
    have hbi := partLen_bounds N k i hk
    have hbj := partLen_bounds N k j hk
    omega

/-- Witness for C1: the partition of range 50 over 4 workers. -/
theorem partitionSequence_partitions_spot :
    0 < 50 ∧ 1 ≤ 4 ∧ 4 ≤ 50 ∧
    ((∀ i j x, i < 4 → j < 4 → i ≠ j →
      ¬((partitionSequence 50 i 4).1 ≤ x ∧ x < (partitionSequence 50 i 4).2 ∧
        (partitionSequence 50 j 4).1 ≤ x ∧ x < (partitionSequence 50 j 4).2)) ∧
    (∀ x, x < 50 ↔ ∃ i, i < 4 ∧
      (partitionSequence 50 i 4).1 ≤ x ∧ x < (partitionSequence 50 i 4).2) ∧
    (∀ i j, i < 4 → j < 4 →
      (partitionSequence 50 i 4).2 - (partitionSequence 50 i 4).1 ≤
        ((partitionSequence 50 j 4).2 - (partitionSequence 50 j 4).1) + 1)) :=
  ⟨by decide, by decide, by decide,
    partitionSequence_partitions 50 4 (by decide) (by decide) (by decide)⟩

/-
Barrier protocol: AlgorithmProcess.sync guards its counter updates with the
shared lock; the locked section is embedded as a pure state transformer, and
one whole call of sync() under no interference (the non-blocking executions)
as a function returning none when the call would block on the event.
-/

/-- State shared by the barrier: the counter, the worker total, the two
alternating events (as seen by the calling worker: `eventSet` is the one it
currently waits on), and whether stopEvent is unset and the parent alive. -/
structure SyncState where
  counter : Int
  total : Nat
  eventSet : Bool
  event2Set : Bool
  continueRunning : Bool
deriving DecidableEq

/-- The section of AlgorithmProcess.sync executed under `syncLock`: returns the
updated state and the `dowait` flag. -/
def syncLocked (st : SyncState) : SyncState × Bool :=
  if st.counter < 0 then (st, false)
  else
    let st1 := if st.counter = 0 then { st with eventSet := false } else st
    let c := st1.counter + 1
    if c < (st.total : Int) then ({ st1 with counter := c }, true)
    else ({ st1 with eventSet := true, counter := 0 }, false)

inductive SyncErr where
  | sibling
  | parentExited
deriving DecidableEq

/-- The event swap after the wait loop
(`self.syncEvent2,self.syncEvent=self.syncEvent,self.syncEvent2`). -/
def syncSwap (st : SyncState) : SyncState :=
  { st with eventSet := st.event2Set, event2Set := st.eventSet }

/-- One call of AlgorithmProcess.sync with `syncEvent` present, under no
interference from other processes: returns `none` when the call blocks in the
wait loop (dowait set, still running, event clear, counter nonnegative),
otherwise the outcome after the swap and the two error checks. -/
def sync (st : SyncState) : Option (Except SyncErr SyncState) :=
  let p := syncLocked st
  if p.2 ∧ p.1.continueRunning ∧ ¬p.1.eventSet ∧ 0 ≤ p.1.counter then none
  else
    let st2 := syncSwap p.1
    some (if st2.counter < 0 then Except.error SyncErr.sibling
      else if st2.continueRunning = false then Except.error SyncErr.parentExited
      else Except.ok st2)

/-- One request handled by AlgorithmProcess.run: the target's outcome is sent
back through the result pipe (the exception itself when it raised), and on an
exception the shared counter is set to `-total-1` under the lock. Returns the
value sent back and the new counter. -/
def workerHandleRequest {E V : Type} (total : Nat) (outcome : Except E V)
    (counter : Int) : (Except E V) × Int :=
  match outcome with
  | Except.ok v => (Except.ok v, counter)
  | Except.error e => (Except.error e, -(total : Int) - 1)

/-- Python dict access `m[i]` for the result maps, keyed by worker index. -/
def mlookup {α : Type} (m : List (Nat × α)) (i : Nat) : Option α :=
  (m.find? (fun p => p.1 == i)).map (fun p => p.2)

/-- The result-collection step of ProcessServer.run (lines 462-474): on normal
completion the dict maps each used process's index to the value received from
it; if polling raised `e`, every used process's index maps to that same `e`. -/
def collectResults {E V : Type} (k : Nat) (recv : Nat → Except E V)
    (pollFail : Option E) : List (Nat × Except E V) :=
  match pollFail with
  | none => (List.range k).map (fun i => (i, recv i))
  | some e => (List.range k).map (fun i => (i, Except.error e))

lemma find?_range_map {α : Type} (k j : Nat) (f : Nat → α) (hj : j < k) :
    ((List.range k).map (fun i => (i, f i))).find? (fun p => p.1 == j) =
      some (j, f j) := by
  induction k with
  | zero => omega
  | succ n ih =>
    rw [List.range_succ, List.map_append, List.find?_append]
    rcases Nat.lt_or_ge j n with h | h
    · rw [ih h]
      rfl
    · have hjn : j = n := by omega
      subst hjn
      have hnone : ((List.range j).map (fun i => (i, f i))).find?
          (fun p => p.1 == j) = none := by
        rw [List.find?_eq_none]
        intro x hx
        simp only [List.mem_map, List.mem_range] at hx
        obtain ⟨i, hi, hxi⟩ := hx
        subst hxi
        simp
        omega
      rw [hnone]
      simp [Option.or]

lemma mlookup_range_map {α : Type} (k j : Nat) (f : Nat → α) (hj : j < k) :
    mlookup ((List.range k).map (fun i => (i, f i))) j = some (f j) := by
  rw [mlookup, find?_range_map k j f hj]
  rfl

/-- Claim C2: if the target raised exception `e` in worker `j` of a `k`-worker
job, worker `j` sends `e` back as its result and sets the shared counter to
`-(k+1)`; a sibling that subsequently calls sync() observes the negative
counter, takes the no-wait path, and raises the sibling-failure error; and the
job's result map contains worker `j`'s exception at key `j`. -/
theorem worker_failure_fanout {E V : Type} (k j : Nat) (e : E) (c0 : Int)
    (recv : Nat → Except E V) (sib : SyncState) (hk : 2 ≤ k) (hj : j < k)
    (hrecv : recv j = Except.error e)
    (hc : sib.counter = -(k : Int) - 1) (ht : sib.total = k)
    (hrun : sib.continueRunning = true) :
    workerHandleRequest k (Except.error e) c0 =
      ((Except.error e : Except E V), -(k : Int) - 1) ∧
    (syncLocked sib).2 = false ∧
    sync sib = some (Except.error SyncErr.sibling) ∧
    mlookup (collectResults k recv none) j = some (Except.error e) := by
  have hneg : sib.counter < 0 := by omega
  have hlocked : syncLocked sib = (sib, false) := by
    rw [syncLocked, if_pos hneg]
  refine ⟨rfl, by rw [hlocked], ?_, ?_⟩
  · rw [sync, hlocked]
    simp only [syncSwap]
    have hswneg : sib.counter < 0 := hneg
    simp [hswneg]
  · rw [collectResults, mlookup_range_map k j recv hj, hrecv]

/-- Witness for C2 at k = 3, j = 1. -/
theorem worker_failure_fanout_spot :
    2 ≤ 3 ∧ (1 : Nat) < 3 ∧
    ((workerHandleRequest 3 (Except.error "boom") 0 =
      ((Except.error "boom" : Except String Nat), -(3 : Int) - 1)) ∧
    (syncLocked ⟨-(3 : Int) - 1, 3, false, false, true⟩).2 = false ∧
    sync ⟨-(3 : Int) - 1, 3, false, false, true⟩ =
      some (Except.error SyncErr.sibling) ∧
    mlookup (collectResults 3
      (fun i => if i = 1 then Except.error "boom" else Except.ok 7) none) 1 =
      some (Except.error "boom")) :=
  ⟨by decide, by decide,
    worker_failure_fanout 3 1 "boom" 0
      (fun i => if i = 1 then Except.error "boom" else Except.ok 7)
      ⟨-(3 : Int) - 1, 3, false, false, true⟩
      (by decide) (by decide) (by simp) (by simp) rfl rfl⟩

/-- `n` successive arrivals at the barrier (the locked section of sync()),
executed one after another as the lock serializes them. -/
def arriveN : Nat → SyncState → SyncState
  | 0, st => st
  | n + 1, st => (syncLocked (arriveN n st)).1

/-- The dispatcher's reset of the shared counter before dispatching each
multi-process job (ProcessServer.run line 453). -/
def dispatchResetCounter (st : SyncState) : SyncState :=
  { st with counter := 0 }

lemma syncLocked_neg (st : SyncState) (h : st.counter < 0) :
    syncLocked st = (st, false) := by
  simp [syncLocked, h]

lemma syncLocked_first (st : SyncState) (h0 : st.counter = 0)
    (hlt : 1 < (st.total : Int)) :
    syncLocked st = ({ st with eventSet := false, counter := 1 }, true) := by
  simp [syncLocked, h0, hlt]

lemma syncLocked_mid (st : SyncState) (h0 : 0 < st.counter)
    (hlt : st.counter + 1 < (st.total : Int)) :
    syncLocked st = ({ st with counter := st.counter + 1 }, true) := by
  have h1 : ¬ st.counter < 0 := by omega
  have h2 : ¬ st.counter = 0 := by omega
  simp [syncLocked, h1, h2, hlt]

lemma syncLocked_last (st : SyncState) (h0 : 0 < st.counter)
    (hge : ¬ st.counter + 1 < (st.total : Int)) :
    syncLocked st = ({ st with eventSet := true, counter := 0 }, false) := by
  have h1 : ¬ st.counter < 0 := by omega
  have h2 : ¬ st.counter = 0 := by omega
  simp [syncLocked, h1, h2, hge]

lemma arriveN_mid (k : Nat) (st0 : SyncState) (hc : st0.counter = 0)
    (ht : st0.total = k) (hk : 0 < k) :
    ∀ m, 0 < m → m < k →
      (arriveN m st0).counter = (m : Int) ∧ (arriveN m st0).eventSet = false ∧
      (arriveN m st0).total = k := by
  intro m
  induction m with
  | zero => omega
  | succ n ih =>
    intro _ hmk
    rcases Nat.eq_zero_or_pos n with hn0 | hnpos
    · subst hn0
      have hfirst := syncLocked_first st0 hc (by rw [ht]; omega)
      simp [arriveN, hfirst, ht]
    · obtain ⟨ihc, ihe, iht⟩ := ih hnpos (by omega)
      have hmid := syncLocked_mid (arriveN n st0) (by omega)
        (by rw [ihc, iht]; omega)
      simp only [arriveN, hmid]
      refine ⟨?_, ihe, iht⟩
      simp only [ihc]
      omega

/-- Claim C3: in an error-free barrier round of k workers starting from
counter 0, each of the first m arrivals (0 < m < k) leaves the counter at m
with the go signal cleared (the first arriver cleared it); the k-th arrival
sets the go signal and resets the counter to 0, so the counter is 0 again
outside the round; and the dispatcher's reset before each multi-process job
also leaves the counter at 0. -/
theorem barrier_counter_invariant (k : Nat) (st0 : SyncState)
    (hc : st0.counter = 0) (ht : st0.total = k) (hk : 2 ≤ k) :
    (∀ m, 0 < m → m < k →
      (arriveN m st0).counter = (m : Int) ∧ (arriveN m st0).eventSet = false) ∧
    (arriveN 1 st0).eventSet = false ∧
    (arriveN k st0).counter = 0 ∧ (arriveN k st0).eventSet = true ∧
    (dispatchResetCounter st0).counter = 0 := by
  have hkpos : 0 < k := by omega
  have hmid := arriveN_mid k st0 hc ht hkpos
  obtain ⟨hk1c, hk1e, hk1t⟩ := hmid (k - 1) (by omega) (by omega)
  have hlast := syncLocked_last (arriveN (k - 1) st0)
    (by rw [hk1c]; omega) (by rw [hk1c, hk1t]; omega)
  have hs : k = (k - 1) + 1 := by omega
  have harr : arriveN k st0 = (syncLocked (arriveN (k - 1) st0)).1 := by
    conv_lhs => rw [hs]
    rfl
  refine ⟨fun m hm hmk => ⟨(hmid m hm hmk).1, (hmid m hm hmk).2.1⟩,
    (hmid 1 (by omega) (by omega)).2.1, ?_, ?_, rfl⟩
  · rw [harr, hlast]
  · rw [harr, hlast]

/-- Witness for C3 at k = 3, with both events initially set. -/
theorem barrier_counter_invariant_spot :
    (0 : Int) = 0 ∧ (3 : Nat) = 3 ∧ 2 ≤ 3 ∧
    ((∀ m, 0 < m → m < 3 →
      (arriveN m ⟨0, 3, true, true, true⟩).counter = (m : Int) ∧
      (arriveN m ⟨0, 3, true, true, true⟩).eventSet = false) ∧
    (arriveN 1 ⟨0, 3, true, true, true⟩).eventSet = false ∧
    (arriveN 3 ⟨0, 3, true, true, true⟩).counter = 0 ∧
    (arriveN 3 ⟨0, 3, true, true, true⟩).eventSet = true ∧
    (dispatchResetCounter ⟨0, 3, true, true, true⟩).counter = 0) :=
  ⟨rfl, rfl, by decide,
    barrier_counter_invariant 3 ⟨0, 3, true, true, true⟩ rfl rfl (by decide)⟩

/-
The dispatch loop of ProcessServer.run, one job at a time: resolution of the
worker count, the single-process (local) branch, argument preparation and the
messages sent to the workers, and the result collection.
-/

/-- The five range fields of an AlgorithmProcess as seen by a target routine. -/
structure LocalWorker where
  index : Nat
  total : Nat
  startval : Nat
  endval : Nat
  maxval : Nat
deriving DecidableEq

/-- The local worker descriptor of the single-process branch:
`AlgorithmProcess(0,1,None,None,None,None,None,task,None,0)` followed by
`localproc.endval=valrange; localproc.maxval=valrange` (startval keeps its
initial value 0). -/
def mkLocalProc (valrange : Nat) : LocalWorker :=
  { index := 0, total := 1, startval := 0, endval := valrange, maxval := valrange }

/-- `numprocs=min(valrange, realnumprocs if numprocs<=0 or
numprocs>realnumprocs else numprocs)` (ProcessServer.run line 427). -/
def resolveNumprocs (valrange realnumprocs : Nat) (numprocs : Int) : Nat :=
  min valrange
    (if numprocs ≤ 0 ∨ (realnumprocs : Int) < numprocs then realnumprocs
     else numprocs.toNat)

/-- ProcessServer.prepareArgs: each positional argument that occurs in
`partArgs` is replaced, for process `index` of `numprocs`, by the slice
`a[astart:aend]` where `(astart,aend)=partitionSequence(len(a),index,numprocs)`;
other arguments are passed through unchanged. -/
def prepareArgs {α : Type} [DecidableEq α] (index numprocs : Nat)
    (args partArgs : List (List α)) : List (List α) :=
  args.map (fun a =>
    if a ∈ partArgs then
      ((a.drop (partitionSequence a.length index numprocs).1).take
        ((partitionSequence a.length index numprocs).2 -
          (partitionSequence a.length index numprocs).1))
    else a)

/-- The request tuple `(target,pargs,kwargs,start,end,valrange,numprocs)` sent
down a worker's pipe, minus the target and kwargs which are forwarded as-is. -/
structure WorkMsg (α : Type) where
  pargs : List (List α)
  startval : Nat
  endval : Nat
  maxval : Nat
  total : Nat
deriving DecidableEq

/-- The two ways one job leaves the dispatch loop: resolved locally with a
result map, or sent to the subprocesses as per-worker messages. -/
inductive Dispatch (E V α : Type) where
  | localResult (m : List (Nat × Except E V))
  | sent (msgs : List (WorkMsg α))

/-- One iteration of the dispatch loop (ProcessServer.run lines 437-460): if
the resolved worker count is 1 or there are no subprocesses, run the target
inline on the local worker descriptor, capturing an exception as the worker-0
result; otherwise build each worker's message from its sub-range of
`[0,valrange)` and its prepared arguments. -/
def dispatchJob {E V α : Type} [DecidableEq α] (valrange : Nat)
    (numprocsReq : Int) (realnumprocs : Nat) (hasProcs : Bool)
    (args partArgs : List (List α))
    (target : LocalWorker → List (List α) → Except E V) : Dispatch E V α :=
  let k := resolveNumprocs valrange realnumprocs numprocsReq
  if k = 1 ∨ hasProcs = false then
    Dispatch.localResult [(0, target (mkLocalProc valrange) args)]
  else
    Dispatch.sent ((List.range k).map (fun i =>
      { pargs := prepareArgs i k args partArgs,
        startval := (partitionSequence valrange i k).1,
        endval := (partitionSequence valrange i k).2,
        maxval := valrange, total := k }))

/-- Claim C4: when the resolved worker count is 1 or the pool has no
subprocesses, the dispatcher runs the target synchronously on a local worker
descriptor with index 0, total 1 and range [0,valrange), never sends worker
messages, and resolves the result as {0: outcome}; a raised exception is
captured into the map as {0: exception}. -/
theorem local_mode_runs_inline {E V α : Type} [DecidableEq α] (valrange : Nat)
    (numprocsReq : Int) (realnumprocs : Nat) (hasProcs : Bool)
    (args partArgs : List (List α))
    (target : LocalWorker → List (List α) → Except E V)
    (h : resolveNumprocs valrange realnumprocs numprocsReq = 1 ∨
      hasProcs = false) :
    dispatchJob valrange numprocsReq realnumprocs hasProcs args partArgs
        target =
      Dispatch.localResult [(0, target
        { index := 0, total := 1, startval := 0, endval := valrange,
          maxval := valrange } args)] ∧
    (∀ msgs, dispatchJob valrange numprocsReq realnumprocs hasProcs args
        partArgs target ≠ Dispatch.sent msgs) ∧
    (∀ e, target (mkLocalProc valrange) args = Except.error e →
      dispatchJob valrange numprocsReq realnumprocs hasProcs args partArgs
          target =
        Dispatch.localResult [(0, Except.error e)]) := by
  have hd : dispatchJob valrange numprocsReq realnumprocs hasProcs args
      partArgs target =
      Dispatch.localResult [(0, target (mkLocalProc valrange) args)] := by
    rw [dispatchJob]
    simp only [if_pos h]
  refine ⟨hd, ?_, ?_⟩
  · intro msgs hmsgs
    rw [hd] at hmsgs
    exact Dispatch.noConfusion hmsgs
  · intro e he
    rw [hd, he]

/-- Witness for C4: range 5, one requested worker, pool of 4. -/
theorem local_mode_runs_inline_spot :
    (resolveNumprocs 5 4 1 = 1 ∨ true = false) ∧
    (dispatchJob 5 1 4 true [[9, 9]] []
        (fun w _ => (Except.ok (w.index + w.endval) : Except String Nat)) =
      Dispatch.localResult [(0, Except.ok 5)] ∧
    (∀ msgs, dispatchJob 5 1 4 true [[9, 9]] []
        (fun w _ => (Except.ok (w.index + w.endval) : Except String Nat)) ≠
      Dispatch.sent msgs) ∧
    (∀ e, (fun (w : LocalWorker) (_ : List (List Nat)) =>
          (Except.ok (w.index + w.endval) : Except String Nat))
        (mkLocalProc 5) [[9, 9]] = Except.error e →
      dispatchJob 5 1 4 true [[9, 9]] []
          (fun w _ => (Except.ok (w.index + w.endval) : Except String Nat)) =
        Dispatch.localResult [(0, Except.error e)])) :=
  ⟨Or.inl (by decide),
    local_mode_runs_inline 5 1 4 true [[9, 9]] []
      (fun w _ => (Except.ok (w.index + w.endval) : Except String Nat))
      (Or.inl (by decide))⟩

/-- The slice the frozen claim C6 predicts for a flagged argument: worker i's
sub-range of the JOB's range [0,N), stated from the spec's words, to be
compared with what prepareArgs computes. -/
def claimedRangeSlice {α : Type} (N i k : Nat) (a : List α) : List α :=
  (a.drop (partitionSequence N i k).1).take
    ((partitionSequence N i k).2 - (partitionSequence N i k).1)

/-- Counterexample to C6 as stated: a 2-worker job of range size N = 2 whose
flagged argument has length 4.  The code slices the argument by partitioning
its own length (worker 0 gets a[0:2] = [5,6]), not by the worker's sub-range
[0,1) of [0,2) (which would give [5]). -/
theorem prepareArgs_ne_claimed_range_slice :
    prepareArgs 0 2 [[5, 6, 7, 8]] [[5, 6, 7, 8]] ≠
      [claimedRangeSlice 2 0 2 ([5, 6, 7, 8] : List Nat)] := by
  decide

/-- Claim C6 (amended): the flagged argument is replaced by its slice over
worker i's partition of the ARGUMENT'S OWN length, [floor(i*len(a)/k),
floor((i+1)*len(a)/k)) — which coincides with the claim's sub-range of [0,N)
exactly when len(a) = N; unflagged arguments are passed through unchanged.
The sent message for worker i carries these prepared arguments. -/
theorem prepareArgs_slices_own_length {E V α : Type} [DecidableEq α]
    (valrange : Nat) (numprocsReq : Int) (realnumprocs : Nat)
    (i k j : Nat) (args partArgs : List (List α)) (a : List α)
    (target : LocalWorker → List (List α) → Except E V)
    (hik : i < k)
    (hk : k = resolveNumprocs valrange realnumprocs numprocsReq)
    (hk1 : k ≠ 1)
    (hj : args[j]? = some a) :
    (a ∈ partArgs →
      ∃ b, (prepareArgs i k args partArgs)[j]? = some b ∧
        b.length = (partitionSequence a.length i k).2 -
          (partitionSequence a.length i k).1 ∧
        (∀ t, t < b.length →
          b[t]? = a[(partitionSequence a.length i k).1 + t]?) ∧
        b = claimedRangeSlice a.length i k a) ∧
    (a ∉ partArgs → (prepareArgs i k args partArgs)[j]? = some a) ∧
    ∃ msgs, dispatchJob valrange numprocsReq realnumprocs true args partArgs
        target = Dispatch.sent msgs ∧
      msgs[i]? = some
        { pargs := prepareArgs i k args partArgs,
          startval := (partitionSequence valrange i k).1,
          endval := (partitionSequence valrange i k).2,
          maxval := valrange, total := k } := by
  have hkpos : 0 < k := by omega
  have hget : ∀ f : List α → List α,
      (args.map f)[j]? = some (f a) := by
    intro f
    rw [List.getElem?_map, hj]
    rfl
  refine ⟨?_, ?_, ?_⟩
  · intro ha
    have hs : partStart a.length k i ≤ partStart a.length k (i + 1) :=
      partStart_mono a.length k (by omega)
    have he : partStart a.length k (i + 1) ≤ a.length := by
      have h1 : partStart a.length k (i + 1) ≤ partStart a.length k k :=
        partStart_mono a.length k (by omega)
      rw [partStart_last a.length k hkpos] at h1
      exact h1
    refine ⟨claimedRangeSlice a.length i k a, ?_, ?_, ?_, rfl⟩
    · rw [prepareArgs]
      have := hget (fun b =>
        if b ∈ partArgs then
          ((b.drop (partitionSequence b.length i k).1).take
            ((partitionSequence b.length i k).2 -
              (partitionSequence b.length i k).1))
        else b)
      rw [this]
      simp only [if_pos ha]
      rfl
    · rw [claimedRangeSlice, List.length_take, List.length_drop,
        partitionSequence_fst, partitionSequence_snd]
      omega
    · intro t ht
      rw [claimedRangeSlice] at ht ⊢
      rw [List.length_take, List.length_drop] at ht
      rw [List.getElem?_take_of_lt (by omega), List.getElem?_drop]
  · intro ha
    rw [prepareArgs]
    have := hget (fun b =>
      if b ∈ partArgs then
        ((b.drop (partitionSequence b.length i k).1).take
          ((partitionSequence b.length i k).2 -
            (partitionSequence b.length i k).1))
      else b)
    rw [this]
    simp only [if_neg ha]
  · have hd : dispatchJob valrange numprocsReq realnumprocs true args partArgs
        target =
        Dispatch.sent ((List.range k).map (fun i2 =>
          { pargs := prepareArgs i2 k args partArgs,
            startval := (partitionSequence valrange i2 k).1,
            endval := (partitionSequence valrange i2 k).2,
            maxval := valrange, total := k })) := by
      rw [dispatchJob]
      simp only [← hk]
      have hcond : ¬ (k = 1 ∨ true = false) := by simp [hk1]
      simp only [if_neg hcond]
    refine ⟨_, hd, ?_⟩
    rw [List.getElem?_map, List.getElem?_range hik]
    rfl

/-- Witness for the amended C6: a 10-element flagged argument over 3 workers,
worker 1 of a range-10 job. -/
theorem prepareArgs_slices_own_length_spot :
    (1 : Nat) < 3 ∧
    (3 : Nat) = resolveNumprocs 10 3 3 ∧ (3 : Nat) ≠ 1 ∧
    [[0, 1, 2, 3, 4, 5, 6, 7, 8, 9], [7]][0]? =
      some [0, 1, 2, 3, 4, 5, 6, 7, 8, 9] ∧
    (([0, 1, 2, 3, 4, 5, 6, 7, 8, 9] ∈
        [([0, 1, 2, 3, 4, 5, 6, 7, 8, 9] : List Nat)] →
      ∃ b, (prepareArgs 1 3 [[0, 1, 2, 3, 4, 5, 6, 7, 8, 9], [7]]
          [[0, 1, 2, 3, 4, 5, 6, 7, 8, 9]])[0]? = some b ∧
        b.length = (partitionSequence 10 1 3).2 - (partitionSequence 10 1 3).1 ∧
        (∀ t, t < b.length →
          b[t]? = ([0, 1, 2, 3, 4, 5, 6, 7, 8, 9] :
            List Nat)[(partitionSequence 10 1 3).1 + t]?) ∧
        b = claimedRangeSlice 10 1 3 [0, 1, 2, 3, 4, 5, 6, 7, 8, 9]) ∧
    (([0, 1, 2, 3, 4, 5, 6, 7, 8, 9] : List Nat) ∉
        [([0, 1, 2, 3, 4, 5, 6, 7, 8, 9] : List Nat)] →
      (prepareArgs 1 3 [[0, 1, 2, 3, 4, 5, 6, 7, 8, 9], [7]]
          [[0, 1, 2, 3, 4, 5, 6, 7, 8, 9]])[0]? =
        some [0, 1, 2, 3, 4, 5, 6, 7, 8, 9]) ∧
    ∃ msgs, dispatchJob 10 3 3 true [[0, 1, 2, 3, 4, 5, 6, 7, 8, 9], [7]]
        [[0, 1, 2, 3, 4, 5, 6, 7, 8, 9]]
        (fun _ _ => (Except.ok 0 : Except String Nat)) =
      Dispatch.sent msgs ∧
      msgs[1]? = some
        { pargs := prepareArgs 1 3 [[0, 1, 2, 3, 4, 5, 6, 7, 8, 9], [7]]
            [[0, 1, 2, 3, 4, 5, 6, 7, 8, 9]],
          startval := (partitionSequence 10 1 3).1,
          endval := (partitionSequence 10 1 3).2,
          maxval := 10, total := 3 }) :=
  ⟨by decide, by decide, by decide, by decide,
    prepareArgs_slices_own_length 10 3 3 1 3 0
      [[0, 1, 2, 3, 4, 5, 6, 7, 8, 9], [7]] [[0, 1, 2, 3, 4, 5, 6, 7, 8, 9]]
      [0, 1, 2, 3, 4, 5, 6, 7, 8, 9]
      (fun _ _ => (Except.ok 0 : Except String Nat))
      (by decide) (by decide) (by decide) (by decide)⟩

/-- Modelled from the spec: `Future` is defined in Utils.py, which is not
among the provided sources.  The spec describes a single-assignment result
container, terminal once set: setting an unset future stores the value, and
a set future keeps its value. -/
def setFuture {α : Type} (f : Option α) (v : α) : Option α :=
  match f with
  | none => some v
  | some w => some w

/-- The dispatch loop's one resolution of the job's Future with the collected
result map (ProcessServer.run lines 462-474). -/
def dispatchResolve {E V : Type} (f : Option (List (Nat × Except E V)))
    (k : Nat) (recv : Nat → Except E V) (pollFail : Option E) :
    Option (List (Nat × Except E V)) :=
  setFuture f (collectResults k recv pollFail)

/-- Claim C7: the dispatcher resolves the Future exactly once — the unset
future becomes set with the collected map and stays terminal; the map's keys
are exactly the worker indices 0..k-1; on normal completion slot i holds
worker i's received value, and when polling itself raised e every slot holds
that same e. -/
theorem future_resolved_once {E V : Type} (k : Nat) (recv : Nat → Except E V)
    (pollFail : Option E) (hk : 0 < k) :
    dispatchResolve none k recv pollFail =
      some (collectResults k recv pollFail) ∧
    (∀ m, setFuture (some m) (collectResults k recv pollFail) = some m) ∧
    (collectResults k recv pollFail).map Prod.fst = List.range k ∧
    (∀ i, i < k → mlookup (collectResults k recv none) i = some (recv i)) ∧
    (∀ e i, i < k → mlookup (collectResults k recv (some e)) i =
      some (Except.error e)) := by
  refine ⟨rfl, fun m => rfl, ?_, ?_, ?_⟩
  · cases pollFail <;>
      · rw [collectResults, List.map_map]
        exact List.map_id (List.range k)
  · intro i hi
    exact mlookup_range_map k i recv hi
  · intro e i hi
    exact mlookup_range_map k i (fun _ => Except.error e) hi

/-- Witness for C7 with 3 workers. -/
theorem future_resolved_once_spot :
    0 < 3 ∧
    (dispatchResolve none 3 (fun i => (Except.ok i : Except String Nat))
        none = some (collectResults 3 (fun i => Except.ok i) none) ∧
    (∀ m, setFuture (some m)
        (collectResults 3 (fun i => (Except.ok i : Except String Nat)) none) =
      some m) ∧
    (collectResults 3 (fun i => (Except.ok i : Except String Nat)) none).map
        Prod.fst = List.range 3 ∧
    (∀ i, i < 3 → mlookup (collectResults 3
        (fun i => (Except.ok i : Except String Nat)) none) i =
      some (Except.ok i)) ∧
    (∀ e i, i < 3 → mlookup (collectResults 3
        (fun i => (Except.ok i : Except String Nat)) (some e)) i =
      some (Except.error e))) :=
  ⟨by decide,
    future_resolved_once 3 (fun i => (Except.ok i : Except String Nat)) none
      (by decide)⟩

/-
ObjectSharer: a Python dict from (index,name) pairs to objects, with
insertion-ordered items; embedded as an association list where assignment
replaces in place or appends a fresh key.
-/

/-- Python dict assignment `d[key]=v`: replace the value of an existing key in
place, else append the new entry. -/
def dictSet {K V : Type} [DecidableEq K] : List (K × V) → K → V → List (K × V)
  | [], key, v => [(key, v)]
  | (k0, v0) :: rest, key, v =>
    if k0 = key then (key, v) :: rest else (k0, v0) :: dictSet rest key v

/-- ObjectSharer.shareObject: `self.objmap[(index,name)]=obj`. -/
def osShareObject {V : Type} (objmap : List ((Nat × String) × V))
    (index : Nat) (name : String) (obj : V) : List ((Nat × String) × V) :=
  dictSet objmap (index, name) obj

/-- ObjectSharer.getObjects: all entries of the given name whose owner index
differs from `excludeIndex` (dict-comprehension order). -/
def osGetObjects {V : Type} (objmap : List ((Nat × String) × V))
    (name : String) (excludeIndex : Int) : List (Nat × V) :=
  objmap.filterMap (fun p =>
    if p.1.2 = name ∧ (p.1.1 : Int) ≠ excludeIndex then some (p.1.1, p.2)
    else none)

/-- AlgorithmProcess.shareObject: `{}` when total is 1 or no sharer is
present; otherwise publish under (self.index, name), and when exchanging,
sync and return the other workers' entries (the Python method returns None
when doExchange is false). Returns the updated registry and the returned
value. -/
def apShareObject {V : Type} (index total : Nat) (hasSharer : Bool)
    (objmap : List ((Nat × String) × V)) (name : String) (obj : V)
    (doExchange : Bool) :
    List ((Nat × String) × V) × Option (List (Nat × V)) :=
  if total = 1 ∨ hasSharer = false then (objmap, some [])
  else
    let m1 := osShareObject objmap index name obj
    if doExchange then (m1, some (osGetObjects m1 name (index : Int)))
    else (m1, none)

/-- The registry after every worker whose index is in `is` has published its
own index under `name` (the state sync() guarantees before any exchanging
worker reads). -/
def publishAll (is : List Nat) (name : String)
    (objmap : List ((Nat × String) × Nat)) : List ((Nat × String) × Nat) :=
  is.foldl (fun m i => osShareObject m i name i) objmap

lemma dictSet_fresh {K V : Type} [DecidableEq K] (l : List (K × V)) (key : K)
    (v : V) (h : ∀ p ∈ l, p.1 ≠ key) : dictSet l key v = l ++ [(key, v)] := by
  induction l with
  | nil => rfl
  | cons p rest ih =>
    rw [dictSet]
    have hp : p.1 ≠ key := h p (List.mem_cons_self p rest)
    rw [if_neg hp]
    have : dictSet rest key v = rest ++ [(key, v)] :=
      ih (fun q hq => h q (List.mem_cons_of_mem p hq))
    rw [this]
    rfl

lemma publishAll_objmap (is : List Nat) (name : String)
    (objmap : List ((Nat × String) × Nat))
    (hfresh : ∀ i ∈ is, ∀ p ∈ objmap, p.1 ≠ (i, name))
    (hnodup : is.Nodup) :
    publishAll is name objmap = objmap ++ is.map (fun i => ((i, name), i)) := by
  induction is generalizing objmap with
  | nil => simp [publishAll]
  | cons i rest ih =>
    rw [publishAll, List.foldl_cons]
    have h1 : osShareObject objmap i name i = objmap ++ [((i, name), i)] :=
      dictSet_fresh objmap (i, name) i
        (hfresh i (List.mem_cons_self i rest))
    rw [osShareObject] at h1
    have h2 : publishAll rest name (objmap ++ [((i, name), i)]) =
        (objmap ++ [((i, name), i)]) ++ rest.map (fun j => ((j, name), j)) := by
      apply ih
      · intro j hj p hp
        rcases List.mem_append.mp hp with hp1 | hp2
        · exact hfresh j (List.mem_cons_of_mem i hj) p hp1
        · have hpi : p = ((i, name), i) := by simpa using hp2
        -- j ∈ rest and i ∉ rest by nodup, so the keys differ
          rw [hpi]
          intro hcontra
          have : i = j := congrArg (fun q => q.1) hcontra
          rw [List.nodup_cons] at hnodup
          exact hnodup.1 (this ▸ hj)
      · exact (List.nodup_cons.mp hnodup).2
    show publishAll rest name (dictSet objmap (i, name) i) = _
    rw [h1, h2, List.append_assoc]
    rfl

lemma osGetObjects_published (k : Nat) (name : String) (j : Nat) :
    osGetObjects ((List.range k).map (fun i => ((i, name), i))) name (j : Int) =
      ((List.range k).filter (fun i => i ≠ j)).map (fun i => (i, i)) := by
  rw [osGetObjects]
  induction k with
  | zero => rfl
  | succ n ih =>
    rw [List.range_succ, List.map_append, List.filterMap_append, ih,
      List.filter_append, List.map_append]
    congr 1
    by_cases hnj : n = j
    · subst hnj
      simp
    · have hne : ((n : Int)) ≠ (j : Int) := by
        intro hc
        exact hnj (by omega)
      simp [hne, hnj]

/-- Claim C5: when workers 0..k-1 (k > 1) each publish their own index under
"x" and exchange, worker j's shareObject call publishes under its own index
and, after the sync (modelled by evaluating the exchange on the registry in
which every worker has published), returns exactly the map
{idx ↦ idx | idx < k, idx ≠ j}: every sibling's entry and not its own. -/
theorem shareObject_exchange_roundtrip (k j : Nat) (hk : 1 < k) (hj : j < k) :
    (apShareObject j k true
        (publishAll (((List.range k).filter (fun i => i ≠ j))) "x" []) "x" j
        true).2 =
      some (((List.range k).filter (fun i => i ≠ j)).map (fun i => (i, i))) ∧
    (apShareObject j k true
        (publishAll (((List.range k).filter (fun i => i ≠ j))) "x" []) "x" j
        true).1 =
      publishAll (((List.range k).filter (fun i => i ≠ j)) ++ [j]) "x" [] := by
  have hknot1 : ¬ (k = 1 ∨ (true : Bool) = false) := by
    rintro (h | h)
    · omega
    · cases h
  have hfilnodup : (((List.range k).filter (fun i => i ≠ j))).Nodup :=
    (List.nodup_range k).filter _
  have hothers : publishAll (((List.range k).filter (fun i => i ≠ j))) "x" [] =
      ((List.range k).filter (fun i => i ≠ j)).map (fun i => ((i, "x"), i)) := by
    rw [publishAll_objmap _ _ _ (by intro i hi p hp; cases hp) hfilnodup]
    rfl
  have hfreshj : ∀ p ∈ ((List.range k).filter (fun i => i ≠ j)).map
      (fun i => ((i, "x"), i)), p.1 ≠ (j, "x") := by
    intro p hp
    rcases List.mem_map.mp hp with ⟨i, hi, hpi⟩
    have hij : i ≠ j := by
      have := List.of_mem_filter hi
      simpa using this
    rw [← hpi]
    intro hc
    exact hij (congrArg (fun q => q.1) hc)
  have hshare : osShareObject (publishAll (((List.range k).filter
      (fun i => i ≠ j))) "x" []) j "x" j =
      ((List.range k).filter (fun i => i ≠ j)).map (fun i => ((i, "x"), i)) ++
        [((j, "x"), j)] := by
    rw [hothers, osShareObject]
    exact dictSet_fresh _ _ _ hfreshj
  constructor
  · rw [apShareObject]
    simp only [if_neg hknot1, if_pos rfl]
    rw [if_pos trivial]
    rw [hshare, osGetObjects, List.filterMap_append]
    have hown : List.filterMap (fun p =>
        if p.1.2 = "x" ∧ ((p.1.1 : Nat) : Int) ≠ (j : Int) then
          some (p.1.1, p.2) else none) [((j, "x"), j)] = [] := by
      simp
    rw [hown, List.append_nil]
    have := osGetObjects_published k "x" j
    rw [osGetObjects] at this
    -- the own-index entries of other workers survive the filter unchanged
    have hsub : List.filterMap (fun p =>
        if p.1.2 = "x" ∧ ((p.1.1 : Nat) : Int) ≠ (j : Int) then
          some (p.1.1, p.2) else none)
        (((List.range k).filter (fun i => i ≠ j)).map
          (fun i => ((i, "x"), i))) =
        ((List.range k).filter (fun i => i ≠ j)).map (fun i => (i, i)) := by
      rw [List.filterMap_map]
      rw [List.filterMap_eq_map_iff_forall_eq_some.mpr ?_]
      intro i hi
      have hij : i ≠ j := by
        have := List.of_mem_filter hi
        simpa using this
      have hne : ((i : Nat) : Int) ≠ (j : Int) := by
        intro hc
        exact hij (by omega)
      simp [Function.comp, hne]
    rw [hsub]
  · rw [apShareObject]
    simp only [if_neg hknot1, if_pos rfl]
    rw [if_pos trivial]
    rw [hshare, publishAll_objmap _ _ _ (by intro i hi p hp; cases hp) ?_]
    · rw [List.map_append]
      rfl
    · rw [List.nodup_append]
      refine ⟨hfilnodup, List.nodup_singleton j, ?_⟩
      intro a ha hb
      have hab : a = j := by simpa using hb
      have := List.of_mem_filter ha
      rw [hab] at this
      simpa using this

/-- Witness for C5 at k = 3, j = 1. -/
theorem shareObject_exchange_roundtrip_spot :
    1 < 3 ∧ (1 : Nat) < 3 ∧
    ((apShareObject 1 3 true
        (publishAll (((List.range 3).filter (fun i => i ≠ 1))) "x" []) "x" 1
        true).2 =
      some (((List.range 3).filter (fun i => i ≠ 1)).map (fun i => (i, i))) ∧
    (apShareObject 1 3 true
        (publishAll (((List.range 3).filter (fun i => i ≠ 1))) "x" []) "x" 1
        true).1 =
      publishAll (((List.range 3).filter (fun i => i ≠ 1)) ++ [1]) "x" []) :=
  ⟨by decide, by decide,
    shareObject_exchange_roundtrip 3 1 (by decide) (by decide)⟩

/-- Claim C10: shareObject's edge cases — total 1 or a missing sharer returns
{} without publishing anything; total > 1 with a sharer but doExchange false
publishes under (self.index, name) and returns None (no map). -/
theorem shareObject_edge_cases {V : Type} (index total : Nat)
    (hasSharer : Bool) (objmap : List ((Nat × String) × V)) (name : String)
    (obj : V) (doExchange : Bool) :
    (total = 1 ∨ hasSharer = false →
      apShareObject index total hasSharer objmap name obj doExchange =
        (objmap, some [])) ∧
    (1 < total → hasSharer = true →
      apShareObject index total hasSharer objmap name obj false =
        (osShareObject objmap index name obj, none)) := by
  constructor
  · intro h
    rw [apShareObject, if_pos h]
  · intro h1 h2
    rw [apShareObject]
    have hno : ¬ (total = 1 ∨ hasSharer = false) := by
      rintro (hc | hc)
      · omega
      · rw [h2] at hc
        cases hc
    rw [if_neg hno]
    rfl

/-- Witness for C10: both edge cases at concrete inputs. -/
theorem shareObject_edge_cases_spot :
    apShareObject 0 1 true [(((9 : Nat), "y"), (4 : Nat))] "x" 3 true =
      ([(((9 : Nat), "y"), (4 : Nat))], some []) ∧
    apShareObject 0 2 true [(((9 : Nat), "y"), (4 : Nat))] "x" 3 false =
      (osShareObject [(((9 : Nat), "y"), (4 : Nat))] 0 "x" 3, none) :=
  ⟨(shareObject_edge_cases 0 1 true [(((9 : Nat), "y"), (4 : Nat))] "x" 3
      true).1 (Or.inl rfl),
    (shareObject_edge_cases 0 2 true [(((9 : Nat), "y"), (4 : Nat))] "x" 3
      false).2 (by decide) rfl⟩

/-
The result-map reducers (module level, Concurrency.py lines 504-518).
-/

/-- Python `sorted(result)`: the result dict's keys in ascending order. -/
def sortedKeys {α : Type} (m : List (Nat × α)) : List Nat :=
  List.insertionSort (· ≤ ·) (m.map Prod.fst)

/-- checkResultMap: iterate the keys in ascending order and raise the first
value that is an exception (returns the raised exception, none otherwise). -/
def checkResultMap {E V : Type} (m : List (Nat × Except E V)) : Option E :=
  (sortedKeys m).findSome? (fun i =>
    match mlookup m i with
    | some (Except.error e) => some e
    | _ => none)

/-- Modelled from the spec: `listSum` is defined in Utils.py, which is not
among the provided sources; the spec says the per-worker list results are
concatenated in worker-index order. -/
def listSum {α : Type} (ls : List (List α)) : List α := ls.flatten

/-- sumResultMap: `listSum(result[i] for i in sorted(result))`. -/
def sumResultMap {α : Type} (m : List (Nat × List α)) : List α :=
  listSum ((sortedKeys m).filterMap (mlookup m))

/-- listResults: `[result[i] for i in sorted(result)]`. -/
def listResults {α : Type} (m : List (Nat × α)) : List α :=
  (sortedKeys m).filterMap (mlookup m)

lemma sortedKeys_perm_range {α : Type} (k : Nat) (m : List (Nat × α))
    (hperm : (m.map Prod.fst).Perm (List.range k)) :
    sortedKeys m = List.range k := by
  have hp2 : (sortedKeys m).Perm (List.range k) :=
    (List.perm_insertionSort (· ≤ ·) (m.map Prod.fst)).trans hperm
  have hsorted : List.Sorted (· ≤ ·) (sortedKeys m) :=
    List.sorted_insertionSort (· ≤ ·) (m.map Prod.fst)
  exact List.eq_of_perm_of_sorted hp2 hsorted (List.sorted_le_range k)

/-- Claim C8: on a result map whose keys are the worker indices 0..k-1, the
raise-first-error reducer returns the first exception met when scanning the
indices in ascending order (and nothing when no value is an exception), the
listing reducer returns the values in ascending index order, and the
concatenation reducer flattens the per-worker lists in ascending index
order. -/
theorem reducers_ascending_index_order {E V : Type} (k : Nat)
    (m : List (Nat × Except E V)) (m2 : List (Nat × List V))
    (hperm : (m.map Prod.fst).Perm (List.range k))
    (hperm2 : (m2.map Prod.fst).Perm (List.range k)) :
    checkResultMap m = (List.range k).findSome? (fun i =>
      match mlookup m i with
      | some (Except.error e) => some e
      | _ => none) ∧
    ((∀ i e, mlookup m i ≠ some (Except.error e)) → checkResultMap m = none) ∧
    listResults m = (List.range k).filterMap (mlookup m) ∧
    sumResultMap m2 = ((List.range k).filterMap (mlookup m2)).flatten := by
  have hs := sortedKeys_perm_range k m hperm
  have hs2 := sortedKeys_perm_range k m2 hperm2
  refine ⟨by rw [checkResultMap, hs], ?_, by rw [listResults, hs], ?_⟩
  · intro hnoerr
    rw [checkResultMap, hs, List.findSome?_eq_none_iff]
    intro i hi
    rcases hcase : mlookup m i with _ | v
    · rfl
    · cases v with
      | error e => exact absurd hcase (hnoerr i e)
      | ok v => rfl
  · rw [sumResultMap, hs2]
    rfl

/-- Witness for C8: {0: err, 1: ok 5} and {1: [3], 0: [1, 2]} over 2 workers
(the spec's reducer examples). -/
theorem reducers_ascending_index_order_spot :
    ([(0, Except.error "err"), (1, Except.ok 5)].map Prod.fst).Perm
      (List.range 2) ∧
    ([(1, [3]), (0, [1, 2])].map Prod.fst).Perm (List.range 2) ∧
    (checkResultMap [(0, Except.error "err"), (1, Except.ok 5)] =
      (List.range 2).findSome? (fun i =>
        match mlookup [(0, Except.error "err"), (1, Except.ok 5)] i with
        | some (Except.error e) => some e
        | _ => none) ∧
    ((∀ i e, mlookup [(0, Except.error "err"), (1, Except.ok 5)] i ≠
        some (Except.error e)) →
      checkResultMap [(0, Except.error "err"), (1, Except.ok 5)] = none) ∧
    listResults [(0, Except.error "err"), (1, Except.ok 5)] =
      (List.range 2).filterMap
        (mlookup [(0, Except.error "err"), (1, Except.ok 5)]) ∧
    sumResultMap [(1, [3]), (0, [1, 2])] =
      ((List.range 2).filterMap
        (mlookup [(1, ([3] : List Nat)), (0, [1, 2])])).flatten) :=
  ⟨by decide, by decide,
    reducers_ascending_index_order 2
      [(0, Except.error "err"), (1, Except.ok 5)] [(1, [3]), (0, [1, 2])]
      (by decide) (by decide)⟩

/-
MethodProxy (Concurrency.py lines 53-73): the per-method stub of the proxy.
-/

/-- The three ways a proxied method call can come out. -/
inductive ProxyResult (E V : Type) where
  | noResponse (msg : String)
  | remoteError (e : E)
  | value (v : V)

/-- MethodProxy.call: sends `(self.name,args,kwargs)` down the send pipe,
then polls the recv pipe for up to 10 seconds.  `response` carries the arrival
time and value of the response the server will deliver, if any; an arrival
after the bound is never received.  An exception value is re-raised, a missing
response raises the IOError naming the method. -/
def methodProxyCall {A K E V : Type} (name : String) (args : A) (kwargs : K)
    (response : Option (Nat × Except E V)) :
    (String × A × K) × ProxyResult E V :=
  ((name, args, kwargs),
    match response with
    | some (t, r) =>
      if t ≤ 10 then
        match r with
        | Except.error e => ProxyResult.remoteError e
        | Except.ok v => ProxyResult.value v
      else ProxyResult.noResponse
        ("Did not get result back for method call " ++ name)
    | none => ProxyResult.noResponse
        ("Did not get result back for method call " ++ name))

/-- Claim C9: the stub sends exactly (methodName, args, kwargs); a response
within the 10-second bound is returned as the value, unless it is an
exception instance, which is re-raised; no response within the bound raises
the no-response IO error whose message names the method. -/
theorem method_proxy_call_contract {A K E V : Type} (name : String) (args : A)
    (kwargs : K) (response : Option (Nat × Except E V)) :
    (methodProxyCall name args kwargs response).1 = (name, args, kwargs) ∧
    (∀ t v, response = some (t, Except.ok v) → t ≤ 10 →
      (methodProxyCall name args kwargs response).2 = ProxyResult.value v) ∧
    (∀ t e, response = some (t, Except.error e) → t ≤ 10 →
      (methodProxyCall name args kwargs response).2 =
        ProxyResult.remoteError e) ∧
    (response = none →
      (methodProxyCall name args kwargs response).2 = ProxyResult.noResponse
        ("Did not get result back for method call " ++ name)) ∧
    (∀ t r, response = some (t, r) → 10 < t →
      (methodProxyCall name args kwargs response).2 = ProxyResult.noResponse
        ("Did not get result back for method call " ++ name)) := by
  refine ⟨rfl, ?_, ?_, ?_, ?_⟩
  · intro t v hr ht
    subst hr
    simp [methodProxyCall, ht]
  · intro t e hr ht
    subst hr
    simp [methodProxyCall, ht]
  · intro hr
    subst hr
    rfl
  · intro t r hr ht
    subst hr
    have hnot : ¬ t ≤ 10 := by omega
    cases r <;> simp [methodProxyCall, hnot]

/-- Witness for C9: three concrete calls of "getObjects": answered after 2s
with a value, answered after 2s with an exception, and never answered. -/
theorem method_proxy_call_contract_spot :
    (methodProxyCall "getObjects" (1 : Nat) (2 : Nat)
      (some ((2 : Nat), (Except.ok (5 : Nat) : Except String Nat)))).2 =
      ProxyResult.value 5 ∧
    (methodProxyCall "getObjects" (1 : Nat) (2 : Nat)
      (some ((2 : Nat), (Except.error "remote" : Except String Nat)))).2 =
      ProxyResult.remoteError "remote" ∧
    (methodProxyCall "getObjects" (1 : Nat) (2 : Nat)
      (none : Option (Nat × Except String Nat))).2 =
      ProxyResult.noResponse
        ("Did not get result back for method call " ++ "getObjects") :=
  ⟨(method_proxy_call_contract "getObjects" (1 : Nat) (2 : Nat)
      (some ((2 : Nat), (Except.ok (5 : Nat) : Except String Nat)))).2.1
      2 5 rfl (by decide),
    (method_proxy_call_contract "getObjects" (1 : Nat) (2 : Nat)
      (some ((2 : Nat), (Except.error "remote" : Except String Nat)))).2.2.1
      2 "remote" rfl (by decide),
    (method_proxy_call_contract "getObjects" (1 : Nat) (2 : Nat)
      (none : Option (Nat × Except String Nat))).2.2.2.1 rfl⟩

end Eidolon
